import Mathlib

/-!
Verification of the timeline tree builder (`buildContent` / `buildNestedData`)
and the embed-code wrapper (`buildEmbeddedCode`) of the orangutan-monorepo
timeline package.

The tree builder ingests a flat, ordered sequence of typed elements
(`group-flag`, `unit-flag`, `record`) and produces a two-level nested tree
(root → group-sections → unit-sections → leaves), inferring section
boundaries from element-type transitions.  The builder implementation is
modelled from the spec (§4.1 placement rules); `buildEmbeddedCode` is
translated from `src/packages/timeline/src/build-code/index.js`.
-/

namespace Timeline

/-- One flat input item: a type tag (one of the three element-type strings for
valid input) and an opaque payload never inspected by the builder. -/
structure Element where
  type : String
  payload : Nat
deriving DecidableEq, Repr

/-- The two section levels of branch nodes. -/
inductive SectionLevel where
  | group
  | unit
deriving DecidableEq, Repr

/-- A tree vertex: either a leaf wrapping exactly one element, or a branch
(section) with an ordered list of children. -/
inductive Node where
  | leaf (el : Element)
  | branch (level : SectionLevel) (children : List Node)

/-- The output tree: a synthetic root whose children are the group-sections. -/
structure Tree where
  children : List Node

/-- The only error of the builder: an element type outside the closed
enumeration, carrying the offending index and the bad type value. -/
inductive BuildError where
  | unknownElementType (index : Nat) (badType : String)
deriving DecidableEq, Repr

/-- Whether a type tag belongs to the closed element-type enumeration. -/
def validType (t : String) : Bool :=
  t == "group-flag" || t == "unit-flag" || t == "record"

/-- The builder's open path: closed group-sections already appended to root,
the children collected so far of the currently open group-section (if any),
and the children collected so far of the currently open unit-section (if
any). -/
structure BuildState where
  closedGroups : List Node
  openGroup : Option (List Node)
  openUnit : Option (List Node)

/-- The initial state: nothing appended to root, no open sections. -/
def initState : BuildState := ⟨[], none, none⟩

/-- Close the open unit-section: materialize it as a `unit` branch appended to
the open group-section's children (creating the group if absent). -/
def flushUnit (st : BuildState) : BuildState :=
  match st.openUnit with
  | none => st
  | some ucs =>
    { closedGroups := st.closedGroups
      openGroup := some (st.openGroup.getD [] ++ [Node.branch .unit ucs])
      openUnit := none }

/-- Close both open sections: the open unit is folded into the open group,
which is materialized as a `group` branch appended to root's children. -/
def flushGroup (st : BuildState) : BuildState :=
  let st' := flushUnit st
  match st'.openGroup with
  | none => st'
  | some gcs =>
    { closedGroups := st'.closedGroups ++ [Node.branch .group gcs]
      openGroup := none
      openUnit := none }

/-- Modelled from the spec: `group-flag` placement rule of `buildContent`
(§4.1) — the implementation of `buildContent` / `buildNestedData` is not
under src/; only its README documentation and its caller are.  Close both
open sections, then open a new group-section whose sole child is the heading
leaf. -/
def stepGroupFlag (st : BuildState) (el : Element) : BuildState :=
  let st' := flushGroup st
  { st' with openGroup := some [Node.leaf el] }

/-- Modelled from the spec: `unit-flag` placement rule of `buildContent`
(§4.1).  Close the open unit only (keeping the open group, creating a
headingless one if absent), then open a new unit-section whose sole child is
the heading leaf. -/
def stepUnitFlag (st : BuildState) (el : Element) : BuildState :=
  let st' := flushUnit st
  { st' with
    openGroup := some (st'.openGroup.getD [])
    openUnit := some [Node.leaf el] }

/-- Modelled from the spec: `record` placement rule of `buildContent` (§4.1).
Reuse the open unit-section if one exists, otherwise open the missing
headingless ancestors; append the element as a leaf child.  Never closes
anything. -/
def stepRecord (st : BuildState) (el : Element) : BuildState :=
  match st.openUnit with
  | some ucs => { st with openUnit := some (ucs ++ [Node.leaf el]) }
  | none =>
    { st with
      openGroup := some (st.openGroup.getD [])
      openUnit := some [Node.leaf el] }

/-- Modelled from the spec: the single pass of `buildContent` over the input
sequence, one element at a time, failing fast at the first element whose
type is outside the closed enumeration (carrying its index and type). -/
def buildLoop : List Element → Nat → BuildState → Except BuildError BuildState
  | [], _, st => .ok st
  | el :: rest, i, st =>
    if el.type = "group-flag" then buildLoop rest (i + 1) (stepGroupFlag st el)
    else if el.type = "unit-flag" then buildLoop rest (i + 1) (stepUnitFlag st el)
    else if el.type = "record" then buildLoop rest (i + 1) (stepRecord st el)
    else .error (.unknownElementType i el.type)

/-- Close everything still open and hand the finished children list to root. -/
def finishState (st : BuildState) : Tree :=
  ⟨(flushGroup st).closedGroups⟩

/-- Modelled from the spec: `buildContent` / `buildNestedData` /
`buildTree` — transform the flat element sequence into the nested tree, or
fail on the first unknown element type. -/
def buildContent (els : List Element) : Except BuildError Tree :=
  (buildLoop els 0 initState).map finishState

mutual
/-- Pre-order sequence of the leaf elements below one node. -/
def leavesN : Node → List Element
  | .leaf el => [el]
  | .branch _ cs => leavesF cs

/-- Pre-order sequence of the leaf elements below a forest. -/
def leavesF : List Node → List Element
  | [] => []
  | n :: ns => leavesN n ++ leavesF ns
end

/-- Pre-order sequence of the leaf elements of the whole tree. -/
def treeLeaves (t : Tree) : List Element :=
  leavesF t.children

mutual
/-- All nodes below one node, in pre-order, the node itself included. -/
def allNodesN : Node → List Node
  | .leaf el => [.leaf el]
  | .branch lvl cs => .branch lvl cs :: allNodesF cs

/-- All nodes below a forest, in pre-order. -/
def allNodesF : List Node → List Node
  | [] => []
  | n :: ns => allNodesN n ++ allNodesF ns
end

/-- All nodes of the tree, the synthetic root excluded. -/
def allNodes (t : Tree) : List Node :=
  allNodesF t.children

/-- The children of a node (a leaf has none). -/
def childrenOf : Node → List Node
  | .leaf _ => []
  | .branch _ cs => cs

/-- The nodes `d` levels below a given forest (`atDepth 0` is the forest
itself); applied to root's children this enumerates the nodes at structural
depth `d + 1`. -/
def atDepth : Nat → List Node → List Node
  | 0, ns => ns
  | d + 1, ns => atDepth d (ns.flatMap childrenOf)

/-- Whether a node is a leaf carrying the given element type. -/
def isLeafOfType (t : String) : Node → Bool
  | .leaf el => el.type == t
  | .branch _ _ => false

/-- Whether a node is a heading leaf (`group-flag` or `unit-flag`). -/
def isHeadingLeaf (n : Node) : Bool :=
  isLeafOfType "group-flag" n || isLeafOfType "unit-flag" n

/-- Well-formed children list of a unit-section: non-empty, an optional
leading `unit-flag` heading leaf, all further children `record` leaves. -/
def wfUnitChildren : List Node → Bool
  | [] => false
  | c :: rest =>
    (isLeafOfType "unit-flag" c || isLeafOfType "record" c)
      && rest.all (isLeafOfType "record")

/-- Whether a node is a well-formed unit-section branch. -/
def isUnitSection : Node → Bool
  | .branch .unit cs => wfUnitChildren cs
  | _ => false

/-- Well-formed children list of a group-section: non-empty, an optional
leading `group-flag` heading leaf, all further children unit-sections. -/
def wfGroupChildren : List Node → Bool
  | [] => false
  | c :: rest =>
    (isLeafOfType "group-flag" c || isUnitSection c)
      && rest.all isUnitSection

/-- Whether a node is a well-formed group-section branch. -/
def isGroupSection : Node → Bool
  | .branch .group cs => wfGroupChildren cs
  | _ => false

/-- Well-formed tree: all root children are well-formed group-sections. -/
def wfTree (t : Tree) : Bool :=
  t.children.all isGroupSection

/-- Pre-order leaf elements held by a build state: closed groups first, then
the open group's collected children, then the open unit's collected
children. -/
def stateLeaves (st : BuildState) : List Element :=
  leavesF st.closedGroups
    ++ (leavesF (st.openGroup.getD []) ++ leavesF (st.openUnit.getD []))

lemma leavesF_append (ns ms : List Node) :
    leavesF (ns ++ ms) = leavesF ns ++ leavesF ms := by
  induction ns with
  | nil => simp [leavesF]
  | cons n ns ih => simp [leavesF, ih]

lemma flushUnit_openUnit (st : BuildState) : (flushUnit st).openUnit = none := by
  cases h : st.openUnit <;> simp [flushUnit, h]

lemma flushGroup_openGroup (st : BuildState) :
    (flushGroup st).openGroup = none := by
  rw [flushGroup]
  cases h : (flushUnit st).openGroup <;> simp [h]

lemma flushGroup_openUnit (st : BuildState) : (flushGroup st).openUnit = none := by
  rw [flushGroup]
  cases h : (flushUnit st).openGroup <;> simp [h, flushUnit_openUnit]

lemma stateLeaves_flushUnit (st : BuildState) :
    stateLeaves (flushUnit st) = stateLeaves st := by
  cases st with
  | mk cg og ou =>
    cases ou <;>
      simp [flushUnit, stateLeaves, leavesF_append, leavesF, leavesN]

lemma stateLeaves_flushGroup (st : BuildState) :
    stateLeaves (flushGroup st) = stateLeaves st := by
  rw [flushGroup]
  cases h : (flushUnit st).openGroup with
  | none => simpa using stateLeaves_flushUnit st
  | some gcs =>
    have h1 := stateLeaves_flushUnit st
    have h2 := flushUnit_openUnit st
    simp [stateLeaves, h, h2, leavesF_append, leavesF, leavesN] at h1 ⊢
    simpa using h1

lemma stateLeaves_stepGroupFlag (st : BuildState) (el : Element) :
    stateLeaves (stepGroupFlag st el) = stateLeaves st ++ [el] := by
  rw [stepGroupFlag]
  have h1 := stateLeaves_flushGroup st
  have h2 := flushGroup_openGroup st
  have h3 := flushGroup_openUnit st
  simp [stateLeaves, h2, h3, leavesF, leavesN] at h1 ⊢
  simp [← List.append_assoc, h1]

lemma stateLeaves_stepUnitFlag (st : BuildState) (el : Element) :
    stateLeaves (stepUnitFlag st el) = stateLeaves st ++ [el] := by
  rw [stepUnitFlag]
  have h1 := stateLeaves_flushUnit st
  have h2 := flushUnit_openUnit st
  simp [stateLeaves, h2, leavesF, leavesN] at h1 ⊢
  simp [← List.append_assoc, h1]

lemma stateLeaves_stepRecord (st : BuildState) (el : Element) :
    stateLeaves (stepRecord st el) = stateLeaves st ++ [el] := by
  cases h : st.openUnit <;>
    simp [stepRecord, h, stateLeaves, leavesF_append, leavesF, leavesN]

lemma treeLeaves_finishState (st : BuildState) :
    treeLeaves (finishState st) = stateLeaves st := by
  have h1 := stateLeaves_flushGroup st
  have h2 := flushGroup_openGroup st
  have h3 := flushGroup_openUnit st
  simp [stateLeaves, h2, h3, leavesF] at h1
  simpa [treeLeaves, finishState] using h1

lemma validType_cases {e : Element} (h : validType e.type = true) :
    e.type = "group-flag" ∨ e.type = "unit-flag" ∨ e.type = "record" := by
  simp [validType] at h
  tauto

lemma buildLoop_ok_of_valid (es : List Element)
    (h : ∀ e ∈ es, validType e.type = true) :
    ∀ i st, ∃ st', buildLoop es i st = .ok st' := by
  induction es with
  | nil => exact fun i st => ⟨st, rfl⟩
  | cons el rest ih =>
    intro i st
    have hrest : ∀ e ∈ rest, validType e.type = true := fun e he =>
      h e (List.mem_cons_of_mem _ he)
    rcases validType_cases (h el (List.mem_cons_self _ _)) with h1 | h1 | h1
    · obtain ⟨st', hst'⟩ := ih hrest (i + 1) (stepGroupFlag st el)
      exact ⟨st', by simp [buildLoop, h1, hst']⟩
    · obtain ⟨st', hst'⟩ := ih hrest (i + 1) (stepUnitFlag st el)
      exact ⟨st', by simp [buildLoop, h1, hst']⟩
    · obtain ⟨st', hst'⟩ := ih hrest (i + 1) (stepRecord st el)
      exact ⟨st', by simp [buildLoop, h1, hst']⟩

lemma buildLoop_stateLeaves (es : List Element) :
    ∀ i st st', buildLoop es i st = .ok st' →
      stateLeaves st' = stateLeaves st ++ es := by
  induction es with
  | nil =>
    intro i st st' hok
    simp [buildLoop] at hok
    simp [hok]
  | cons el rest ih =>
    intro i st st' hok
    by_cases h1 : el.type = "group-flag"
    · rw [buildLoop, if_pos h1] at hok
      simp [ih _ _ _ hok, stateLeaves_stepGroupFlag]
    · by_cases h2 : el.type = "unit-flag"
      · rw [buildLoop, if_neg h1, if_pos h2] at hok
        simp [ih _ _ _ hok, stateLeaves_stepUnitFlag]
      · by_cases h3 : el.type = "record"
        · rw [buildLoop, if_neg h1, if_neg h2, if_pos h3] at hok
          simp [ih _ _ _ hok, stateLeaves_stepRecord]
        · rw [buildLoop, if_neg h1, if_neg h2, if_neg h3] at hok
          exact absurd hok (by simp)

lemma buildContent_ok (es : List Element) (st' : BuildState)
    (h : buildLoop es 0 initState = .ok st') :
    buildContent es = .ok (finishState st') := by
  rw [buildContent, h]
  rfl

/-- C1: for every input sequence of valid element types, the builder
succeeds and the pre-order traversal of the leaves of the resulting tree
reproduces the input sequence exactly, element-for-element. -/
theorem buildContent_leaves_id (es : List Element)
    (h : ∀ e ∈ es, validType e.type = true) :
    ∃ t, buildContent es = .ok t ∧ treeLeaves t = es := by
  obtain ⟨st', hst'⟩ := buildLoop_ok_of_valid es h 0 initState
  refine ⟨finishState st', buildContent_ok es st' hst', ?_⟩
  rw [treeLeaves_finishState, buildLoop_stateLeaves es 0 initState st' hst']
  simp [stateLeaves, initState, leavesF]

theorem buildContent_leaves_id_witness :
    ∃ t, buildContent [⟨"group-flag", 0⟩, ⟨"record", 1⟩] = .ok t ∧
      treeLeaves t = [⟨"group-flag", 0⟩, ⟨"record", 1⟩] :=
  buildContent_leaves_id [⟨"group-flag", 0⟩, ⟨"record", 1⟩] (by decide)

/-- C5: the builder is total on valid input — it returns a tree (never an
error) for every sequence of valid element types, and the empty sequence
yields the root with zero children. -/
theorem buildContent_total (es : List Element)
    (h : ∀ e ∈ es, validType e.type = true) :
    ∃ t, buildContent es = .ok t ∧ (es = [] → t = ⟨[]⟩) := by
  obtain ⟨st', hst'⟩ := buildLoop_ok_of_valid es h 0 initState
  refine ⟨finishState st', buildContent_ok es st' hst', ?_⟩
  rintro rfl
  simp [buildLoop] at hst'
  subst hst'
  rfl

theorem buildContent_total_witness :
    ∃ t, buildContent [] = .ok t ∧ (([] : List Element) = [] → t = ⟨[]⟩) :=
  buildContent_total [] (by decide)

lemma buildLoop_cons_of_valid {el : Element} (h : validType el.type = true)
    (rest : List Element) (i : Nat) (st : BuildState) :
    ∃ st1, buildLoop (el :: rest) i st = buildLoop rest (i + 1) st1 := by
  rcases validType_cases h with h1 | h1 | h1
  · exact ⟨stepGroupFlag st el, by rw [buildLoop, if_pos h1]⟩
  · refine ⟨stepUnitFlag st el, ?_⟩
    rw [buildLoop, if_neg (by simp [h1]), if_pos h1]
  · refine ⟨stepRecord st el, ?_⟩
    rw [buildLoop, if_neg (by simp [h1]), if_neg (by simp [h1]), if_pos h1]

lemma buildLoop_cons_of_invalid {el : Element} (h : validType el.type = false)
    (rest : List Element) (i : Nat) (st : BuildState) :
    buildLoop (el :: rest) i st = .error (.unknownElementType i el.type) := by
  have h1 : ¬el.type = "group-flag" := by
    intro hh; rw [hh] at h; exact absurd h (by decide)
  have h2 : ¬el.type = "unit-flag" := by
    intro hh; rw [hh] at h; exact absurd h (by decide)
  have h3 : ¬el.type = "record" := by
    intro hh; rw [hh] at h; exact absurd h (by decide)
  rw [buildLoop, if_neg h1, if_neg h2, if_neg h3]

lemma buildLoop_err_of_invalid :
    ∀ (es : List Element), (∃ e ∈ es, validType e.type = false) →
    ∀ i st, ∃ k e, es[k]? = some e ∧ validType e.type = false ∧
      (∀ j, j < k → ∀ e', es[j]? = some e' → validType e'.type = true) ∧
      buildLoop es i st = .error (.unknownElementType (i + k) e.type) := by
  intro es
  induction es with
  | nil => rintro ⟨e, he, -⟩; exact absurd he (by simp)
  | cons el rest ih =>
    intro hbad i st
    by_cases hval : validType el.type = true
    · have hrest : ∃ e ∈ rest, validType e.type = false := by
        rcases hbad with ⟨e, he, hbe⟩
        rcases List.mem_cons.mp he with rfl | hmem
        · rw [hval] at hbe; exact absurd hbe (by simp)
        · exact ⟨e, hmem, hbe⟩
      obtain ⟨st1, hstep⟩ := buildLoop_cons_of_valid hval rest i st
      obtain ⟨k, e, h1, h2, h3, h4⟩ := ih hrest (i + 1) st1
      refine ⟨k + 1, e, by simpa using h1, h2, ?_, ?_⟩
      · intro j hj e' he'
        cases j with
        | zero => simp at he'; subst he'; exact hval
        | succ j' =>
          exact h3 j' (Nat.lt_of_succ_lt_succ hj) e' (by simpa using he')
      · rw [hstep, h4]
        congr 1
        congr 1
        omega
    · have hfalse : validType el.type = false := by
        cases hel : validType el.type
        · rfl
        · exact absurd hel hval
      refine ⟨0, el, by simp, hfalse, by simp, ?_⟩
      rw [buildLoop_cons_of_invalid hfalse rest i st]
      simp

/-- C6: whenever some element of the input carries a type outside the closed
enumeration, the builder fails fast at the first such element, with an
"unknown element type" error carrying the offending index and the bad type
value, and returns no (partial) tree. -/
theorem buildContent_fails_on_unknown_type (es : List Element)
    (h : ∃ e ∈ es, validType e.type = false) :
    ∃ k e, es[k]? = some e ∧ validType e.type = false ∧
      (∀ j, j < k → ∀ e', es[j]? = some e' → validType e'.type = true) ∧
      buildContent es = .error (.unknownElementType k e.type) := by
  obtain ⟨k, e, h1, h2, h3, h4⟩ := buildLoop_err_of_invalid es h 0 initState
  rw [Nat.zero_add] at h4
  exact ⟨k, e, h1, h2, h3, by rw [buildContent, h4]; rfl⟩

theorem buildContent_fails_on_unknown_type_witness :
    ∃ k e,
      [Element.mk "record" 0, Element.mk "bogus" 1][k]? = some e ∧
      validType e.type = false ∧
      (∀ j, j < k → ∀ e',
        [Element.mk "record" 0, Element.mk "bogus" 1][j]? = some e' →
          validType e'.type = true) ∧
      buildContent [Element.mk "record" 0, Element.mk "bogus" 1] =
        .error (.unknownElementType k e.type) :=
  buildContent_fails_on_unknown_type
    [Element.mk "record" 0, Element.mk "bogus" 1]
    ⟨Element.mk "bogus" 1, by decide, by decide⟩

/-- C7: the canonical documented example — input
`[group-flag, unit-flag, record, record, group-flag, unit-flag, record]`
produces a root with exactly two group-sections, the first holding its
heading and a unit-section with its heading and two records, the second
holding its heading and a unit-section with its heading and one record. -/
theorem buildContent_canonical_example (p0 p1 p2 p3 p4 p5 p6 : Nat) :
    buildContent
      [⟨"group-flag", p0⟩, ⟨"unit-flag", p1⟩, ⟨"record", p2⟩, ⟨"record", p3⟩,
        ⟨"group-flag", p4⟩, ⟨"unit-flag", p5⟩, ⟨"record", p6⟩] =
    .ok ⟨[
      .branch .group [
        .leaf ⟨"group-flag", p0⟩,
        .branch .unit [
          .leaf ⟨"unit-flag", p1⟩, .leaf ⟨"record", p2⟩,
          .leaf ⟨"record", p3⟩]],
      .branch .group [
        .leaf ⟨"group-flag", p4⟩,
        .branch .unit [
          .leaf ⟨"unit-flag", p5⟩, .leaf ⟨"record", p6⟩]]]⟩ := rfl

theorem buildContent_canonical_example_witness :
    buildContent
      [⟨"group-flag", 0⟩, ⟨"unit-flag", 1⟩, ⟨"record", 2⟩, ⟨"record", 3⟩,
        ⟨"group-flag", 4⟩, ⟨"unit-flag", 5⟩, ⟨"record", 6⟩] =
    .ok ⟨[
      .branch .group [
        .leaf ⟨"group-flag", 0⟩,
        .branch .unit [
          .leaf ⟨"unit-flag", 1⟩, .leaf ⟨"record", 2⟩,
          .leaf ⟨"record", 3⟩]],
      .branch .group [
        .leaf ⟨"group-flag", 4⟩,
        .branch .unit [
          .leaf ⟨"unit-flag", 5⟩, .leaf ⟨"record", 6⟩]]]⟩ :=
  buildContent_canonical_example 0 1 2 3 4 5 6

/-- C8: leading unheaded records — input
`[record, record, group-flag, unit-flag, record]` produces a first
headingless group-section holding one headingless unit-section with the two
records, then a second group-section with the group heading first and a
unit-section with the unit heading and the final record. -/
theorem buildContent_unheaded_records_example (p0 p1 p2 p3 p4 : Nat) :
    buildContent
      [⟨"record", p0⟩, ⟨"record", p1⟩, ⟨"group-flag", p2⟩,
        ⟨"unit-flag", p3⟩, ⟨"record", p4⟩] =
    .ok ⟨[
      .branch .group [
        .branch .unit [.leaf ⟨"record", p0⟩, .leaf ⟨"record", p1⟩]],
      .branch .group [
        .leaf ⟨"group-flag", p2⟩,
        .branch .unit [
          .leaf ⟨"unit-flag", p3⟩, .leaf ⟨"record", p4⟩]]]⟩ := rfl

theorem buildContent_unheaded_records_example_witness :
    buildContent
      [⟨"record", 0⟩, ⟨"record", 1⟩, ⟨"group-flag", 2⟩,
        ⟨"unit-flag", 3⟩, ⟨"record", 4⟩] =
    .ok ⟨[
      .branch .group [
        .branch .unit [.leaf ⟨"record", 0⟩, .leaf ⟨"record", 1⟩]],
      .branch .group [
        .leaf ⟨"group-flag", 2⟩,
        .branch .unit [
          .leaf ⟨"unit-flag", 3⟩, .leaf ⟨"record", 4⟩]]]⟩ :=
  buildContent_unheaded_records_example 0 1 2 3 4

/-- Children list of a still-open group-section: like `wfGroupChildren` but
the empty list is allowed (nothing collected yet). -/
def wfOpenGroup (gcs : List Node) : Bool :=
  gcs.isEmpty || wfGroupChildren gcs

/-- Structural invariant of the builder state: closed groups are well-formed
group-sections, the open group's children are a well-formed group prefix,
the open unit's children are well-formed (and non-empty), and an open group
that is still childless always has an open unit about to fill it. -/
def StOK (st : BuildState) : Prop :=
  st.closedGroups.all isGroupSection = true ∧
  (∀ gcs, st.openGroup = some gcs → wfOpenGroup gcs = true) ∧
  (∀ ucs, st.openUnit = some ucs → wfUnitChildren ucs = true) ∧
  (st.openGroup = some [] → st.openUnit ≠ none)

lemma StOK_init : StOK initState := by
  refine ⟨rfl, ?_, ?_, ?_⟩ <;> simp [initState]

lemma wfGroupChildren_append_unit {gcs : List Node} {nu : Node}
    (hg : wfOpenGroup gcs = true) (hu : isUnitSection nu = true) :
    wfGroupChildren (gcs ++ [nu]) = true := by
  cases gcs with
  | nil => simp [wfGroupChildren, hu]
  | cons c rest =>
    simp [wfOpenGroup, wfGroupChildren] at hg
    simp [wfGroupChildren, List.all_append, hg.1, hg.2, hu, List.all_eq_true]
    exact fun n hn => hg.2 n hn

lemma wfUnitChildren_append_record {ucs : List Node} {n : Node}
    (hu : wfUnitChildren ucs = true) (hn : isLeafOfType "record" n = true) :
    wfUnitChildren (ucs ++ [n]) = true := by
  cases ucs with
  | nil => simp [wfUnitChildren] at hu
  | cons c rest =>
    simp [wfUnitChildren, List.all_eq_true] at hu ⊢
    exact ⟨hu.1, hu.2, hn⟩

lemma StOK_flushUnit {st : BuildState} (h : StOK st) : StOK (flushUnit st) := by
  obtain ⟨hc, hg, hu, he⟩ := h
  cases hou : st.openUnit with
  | none => simpa [flushUnit, hou] using ⟨hc, hg, hu, he⟩
  | some ucs =>
    have hwu : wfUnitChildren ucs = true := hu ucs hou
    have hus : isUnitSection (Node.branch .unit ucs) = true := by
      simpa [isUnitSection] using hwu
    have hog : wfOpenGroup (st.openGroup.getD []) = true := by
      cases hg' : st.openGroup with
      | none => rfl
      | some gcs => simpa using hg gcs hg'
    refine ⟨by simpa [flushUnit, hou] using hc, ?_, ?_, ?_⟩
    · intro gcs hgcs
      simp [flushUnit, hou] at hgcs
      subst hgcs
      simp [wfOpenGroup, wfGroupChildren_append_unit hog hus]
    · intro ucs' h'
      simp [flushUnit, hou] at h'
    · intro habs
      simp [flushUnit, hou] at habs

lemma StOK_flushGroup {st : BuildState} (h : StOK st) : StOK (flushGroup st) := by
  have h1 := StOK_flushUnit h
  obtain ⟨hc, hg, hu, he⟩ := h1
  rw [flushGroup]
  cases hog : (flushUnit st).openGroup with
  | none => simpa [hog] using ⟨hc, hg, hu, he⟩
  | some gcs =>
    have hnonempty : gcs ≠ [] := by
      rintro rfl
      exact he hog (flushUnit_openUnit st)
    have hwf : wfGroupChildren gcs = true := by
      have := hg gcs hog
      cases gcs with
      | nil => exact absurd rfl hnonempty
      | cons c rest => simpa [wfOpenGroup] using this
    refine ⟨?_, by simp, by simp, by simp⟩
    simp [List.all_append, hc, List.all_eq_true]
    simpa [isGroupSection] using hwf

lemma StOK_stepGroupFlag {st : BuildState} {el : Element} (h : StOK st)
    (hel : el.type = "group-flag") : StOK (stepGroupFlag st el) := by
  obtain ⟨hc, hg, hu, he⟩ := StOK_flushGroup h
  rw [stepGroupFlag]
  refine ⟨hc, ?_, ?_, ?_⟩
  · intro gcs hgcs
    simp at hgcs
    subst hgcs
    simp [wfOpenGroup, wfGroupChildren, isLeafOfType, hel]
  · intro ucs h'
    simp [flushGroup_openUnit st] at h'
  · intro habs
    simp at habs

lemma StOK_stepUnitFlag {st : BuildState} {el : Element} (h : StOK st)
    (hel : el.type = "unit-flag") : StOK (stepUnitFlag st el) := by
  obtain ⟨hc, hg, hu, he⟩ := StOK_flushUnit h
  rw [stepUnitFlag]
  refine ⟨hc, ?_, ?_, ?_⟩
  · intro gcs hgcs
    simp at hgcs
    cases hog : (flushUnit st).openGroup with
    | none => simp [hog] at hgcs; simp [← hgcs, wfOpenGroup]
    | some gcs' =>
      simp [hog] at hgcs
      subst hgcs
      exact hg gcs' hog
  · intro ucs h'
    simp at h'
    subst h'
    simp [wfUnitChildren, isLeafOfType, hel]
  · intro _
    simp

lemma StOK_stepRecord {st : BuildState} {el : Element} (h : StOK st)
    (hel : el.type = "record") : StOK (stepRecord st el) := by
  obtain ⟨hc, hg, hu, he⟩ := h
  cases hou : st.openUnit with
  | some ucs =>
    refine ⟨by simpa [stepRecord, hou] using hc, ?_, ?_, ?_⟩
    · intro gcs hgcs
      simp [stepRecord, hou] at hgcs
      exact hg gcs hgcs
    · intro ucs' h'
      simp [stepRecord, hou] at h'
      subst h'
      exact wfUnitChildren_append_record (hu ucs hou)
        (by simp [isLeafOfType, hel])
    · intro habs
      simp [stepRecord, hou]
  | none =>
    refine ⟨by simpa [stepRecord, hou] using hc, ?_, ?_, ?_⟩
    · intro gcs hgcs
      simp [stepRecord, hou] at hgcs
      cases hog : st.openGroup with
      | none => simp [hog] at hgcs; simp [← hgcs, wfOpenGroup]
      | some gcs' =>
        simp [hog] at hgcs
        subst hgcs
        exact hg gcs' hog
    · intro ucs' h'
      simp [stepRecord, hou] at h'
      subst h'
      simp [wfUnitChildren, isLeafOfType, hel]
    · intro _
      simp [stepRecord, hou]

lemma buildLoop_StOK (es : List Element) :
    ∀ i st st', buildLoop es i st = .ok st' → StOK st → StOK st' := by
  induction es with
  | nil =>
    intro i st st' hok h
    simp [buildLoop] at hok
    exact hok ▸ h
  | cons el rest ih =>
    intro i st st' hok h
    by_cases h1 : el.type = "group-flag"
    · rw [buildLoop, if_pos h1] at hok
      exact ih _ _ _ hok (StOK_stepGroupFlag h h1)
    · by_cases h2 : el.type = "unit-flag"
      · rw [buildLoop, if_neg h1, if_pos h2] at hok
        exact ih _ _ _ hok (StOK_stepUnitFlag h h2)
      · by_cases h3 : el.type = "record"
        · rw [buildLoop, if_neg h1, if_neg h2, if_pos h3] at hok
          exact ih _ _ _ hok (StOK_stepRecord h h3)
        · rw [buildLoop, if_neg h1, if_neg h2, if_neg h3] at hok
          exact absurd hok (by simp)

lemma wfTree_finishState {st : BuildState} (h : StOK st) :
    wfTree (finishState st) = true := by
  have h1 := StOK_flushGroup h
  simpa [wfTree, finishState] using h1.1

lemma mem_allNodesF {n : Node} : ∀ {ns : List Node},
    n ∈ allNodesF ns ↔ ∃ m ∈ ns, n ∈ allNodesN m := by
  intro ns
  induction ns with
  | nil => simp [allNodesF]
  | cons m ms ih =>
    simp [allNodesF, List.mem_append, ih]

lemma isLeafOfType_node {t : String} {n : Node}
    (h : isLeafOfType t n = true) : ∃ el, n = .leaf el ∧ el.type = t := by
  cases n with
  | leaf el => exact ⟨el, rfl, by simpa [isLeafOfType] using h⟩
  | branch lvl cs => simp [isLeafOfType] at h

lemma isUnitSection_node {n : Node} (h : isUnitSection n = true) :
    ∃ cs, n = .branch .unit cs ∧ wfUnitChildren cs = true := by
  cases n with
  | leaf el => simp [isUnitSection] at h
  | branch lvl cs =>
    cases lvl with
    | group => simp [isUnitSection] at h
    | unit => exact ⟨cs, rfl, by simpa [isUnitSection] using h⟩

lemma isGroupSection_node {n : Node} (h : isGroupSection n = true) :
    ∃ cs, n = .branch .group cs ∧ wfGroupChildren cs = true := by
  cases n with
  | leaf el => simp [isGroupSection] at h
  | branch lvl cs =>
    cases lvl with
    | unit => simp [isGroupSection] at h
    | group => exact ⟨cs, rfl, by simpa [isGroupSection] using h⟩

lemma wfUnit_members {cs : List Node} (h : wfUnitChildren cs = true) :
    ∀ n ∈ cs, isLeafOfType "unit-flag" n = true ∨
      isLeafOfType "record" n = true := by
  cases cs with
  | nil => simp
  | cons c rest =>
    simp [wfUnitChildren, List.all_eq_true] at h
    intro n hn
    rcases List.mem_cons.mp hn with rfl | hm
    · exact h.1
    · exact Or.inr (h.2 n hm)

lemma wfUnit_tail {cs : List Node} (h : wfUnitChildren cs = true) :
    ∀ n ∈ cs.tail, isLeafOfType "record" n = true := by
  cases cs with
  | nil => simp
  | cons c rest =>
    simp [wfUnitChildren, List.all_eq_true] at h
    simpa using h.2

lemma wfGroup_members {cs : List Node} (h : wfGroupChildren cs = true) :
    ∀ n ∈ cs, isLeafOfType "group-flag" n = true ∨ isUnitSection n = true := by
  cases cs with
  | nil => simp
  | cons c rest =>
    simp [wfGroupChildren, List.all_eq_true] at h
    intro n hn
    rcases List.mem_cons.mp hn with rfl | hm
    · exact h.1
    · exact Or.inr (h.2 n hm)

lemma wfGroup_tail {cs : List Node} (h : wfGroupChildren cs = true) :
    ∀ n ∈ cs.tail, isUnitSection n = true := by
  cases cs with
  | nil => simp
  | cons c rest =>
    simp [wfGroupChildren, List.all_eq_true] at h
    simpa using h.2

lemma allNodesF_of_leaves : ∀ {cs : List Node},
    (∀ n ∈ cs, ∃ el, n = .leaf el) → allNodesF cs = cs := by
  intro cs
  induction cs with
  | nil => simp [allNodesF]
  | cons c rest ih =>
    intro h
    obtain ⟨el, rfl⟩ := h c (List.mem_cons_self _ _)
    rw [allNodesF, allNodesN, ih (fun n hn => h n (List.mem_cons_of_mem _ hn))]
    rfl

lemma wfUnit_children_leaves {cs : List Node} (h : wfUnitChildren cs = true) :
    ∀ n ∈ cs, ∃ el, n = .leaf el := by
  intro n hn
  rcases wfUnit_members h n hn with h' | h' <;>
    exact (isLeafOfType_node h').imp (fun el hel => hel.1)

/-- Every node of a well-formed tree is a well-formed group-section, a
well-formed unit-section, or a leaf. -/
lemma wf_node_cases {t : Tree} (hw : wfTree t = true) {n : Node}
    (hn : n ∈ allNodes t) :
    isGroupSection n = true ∨ isUnitSection n = true ∨ ∃ el, n = .leaf el := by
  rw [allNodes] at hn
  obtain ⟨g, hgmem, hgn⟩ := mem_allNodesF.mp hn
  have hgs : isGroupSection g = true := by
    simp [wfTree, List.all_eq_true] at hw
    exact hw g hgmem
  obtain ⟨cs, rfl, hwfg⟩ := isGroupSection_node hgs
  rw [allNodesN] at hgn
  rcases List.mem_cons.mp hgn with rfl | hdesc
  · exact Or.inl hgs
  · obtain ⟨m, hm, hnm⟩ := mem_allNodesF.mp hdesc
    rcases wfGroup_members hwfg m hm with hleaf | hunit
    · obtain ⟨el, rfl, -⟩ := isLeafOfType_node hleaf
      rw [allNodesN] at hnm
      simp at hnm
      exact Or.inr (Or.inr ⟨el, hnm⟩)
    · obtain ⟨ucs, rfl, hwfu⟩ := isUnitSection_node hunit
      rw [allNodesN, allNodesF_of_leaves (wfUnit_children_leaves hwfu)] at hnm
      rcases List.mem_cons.mp hnm with rfl | hin
      · exact Or.inr (Or.inl hunit)
      · exact Or.inr (Or.inr (wfUnit_children_leaves hwfu n hin))

lemma wfGroupChildren_ne_nil {cs : List Node}
    (h : wfGroupChildren cs = true) : cs ≠ [] := by
  rintro rfl
  simp [wfGroupChildren] at h

lemma wfUnitChildren_ne_nil {cs : List Node}
    (h : wfUnitChildren cs = true) : cs ≠ [] := by
  rintro rfl
  simp [wfUnitChildren] at h

lemma isGroupSection_branch {lvl : SectionLevel} {cs : List Node}
    (h : isGroupSection (.branch lvl cs) = true) :
    lvl = .group ∧ wfGroupChildren cs = true := by
  cases lvl with
  | group => exact ⟨rfl, by simpa [isGroupSection] using h⟩
  | unit => simp [isGroupSection] at h

lemma isUnitSection_branch {lvl : SectionLevel} {cs : List Node}
    (h : isUnitSection (.branch lvl cs) = true) :
    lvl = .unit ∧ wfUnitChildren cs = true := by
  cases lvl with
  | unit => exact ⟨rfl, by simpa [isUnitSection] using h⟩
  | group => simp [isUnitSection] at h

/-- C2: for every input sequence of valid element types, every branch node
of the returned tree (the synthetic root apart, which the claim itself
exempts for the empty input) has at least one child: no empty group-section
or unit-section is ever materialized. -/
theorem buildContent_branches_nonempty (es : List Element)
    (h : ∀ e ∈ es, validType e.type = true) :
    ∃ t, buildContent es = .ok t ∧
      ∀ n ∈ allNodes t, ∀ lvl cs, n = Node.branch lvl cs → cs ≠ [] := by
  obtain ⟨st', hst'⟩ := buildLoop_ok_of_valid es h 0 initState
  have hwf := wfTree_finishState (buildLoop_StOK es 0 initState st' hst' StOK_init)
  refine ⟨finishState st', buildContent_ok es st' hst', ?_⟩
  intro n hn lvl cs hcs
  subst hcs
  rcases wf_node_cases hwf hn with hgs | hus | ⟨el, hleaf⟩
  · exact wfGroupChildren_ne_nil (isGroupSection_branch hgs).2
  · exact wfUnitChildren_ne_nil (isUnitSection_branch hus).2
  · exact absurd hleaf (by simp)

theorem buildContent_branches_nonempty_witness :
    ∃ t, buildContent [⟨"unit-flag", 0⟩] = .ok t ∧
      ∀ n ∈ allNodes t, ∀ lvl cs, n = Node.branch lvl cs → cs ≠ [] :=
  buildContent_branches_nonempty [⟨"unit-flag", 0⟩] (by decide)

lemma record_not_heading {c : Node} (h : isLeafOfType "record" c = true) :
    isHeadingLeaf c = false := by
  obtain ⟨el, rfl, htype⟩ := isLeafOfType_node h
  simp [isHeadingLeaf, isLeafOfType, htype]

lemma unitSection_not_heading {c : Node} (h : isUnitSection c = true) :
    isHeadingLeaf c = false := by
  obtain ⟨ucs, rfl, -⟩ := isUnitSection_node h
  simp [isHeadingLeaf, isLeafOfType]

/-- C4: in every section of the returned tree that contains a heading leaf
among its children, that heading leaf is the section's first child. -/
theorem buildContent_heading_first (es : List Element)
    (h : ∀ e ∈ es, validType e.type = true) :
    ∃ t, buildContent es = .ok t ∧
      ∀ n ∈ allNodes t, ∀ lvl cs, n = Node.branch lvl cs →
        ∀ c ∈ cs, isHeadingLeaf c = true → cs.head? = some c := by
  obtain ⟨st', hst'⟩ := buildLoop_ok_of_valid es h 0 initState
  have hwf := wfTree_finishState (buildLoop_StOK es 0 initState st' hst' StOK_init)
  refine ⟨finishState st', buildContent_ok es st' hst', ?_⟩
  intro n hn lvl cs hcs c hc hhead
  subst hcs
  have htail : ∀ m ∈ cs.tail, isHeadingLeaf m = false := by
    rcases wf_node_cases hwf hn with hgs | hus | ⟨el, hleaf⟩
    · exact fun m hm =>
        unitSection_not_heading (wfGroup_tail (isGroupSection_branch hgs).2 m hm)
    · exact fun m hm =>
        record_not_heading (wfUnit_tail (isUnitSection_branch hus).2 m hm)
    · exact absurd hleaf (by simp)
  cases cs with
  | nil => exact absurd hc (by simp)
  | cons c0 rest =>
    rcases List.mem_cons.mp hc with rfl | hmem
    · rfl
    · rw [htail c (by simpa using hmem)] at hhead
      exact absurd hhead (by simp)

theorem buildContent_heading_first_witness :
    ∃ t, buildContent [⟨"group-flag", 1⟩, ⟨"record", 2⟩] = .ok t ∧
      ∀ n ∈ allNodes t, ∀ lvl cs, n = Node.branch lvl cs →
        ∀ c ∈ cs, isHeadingLeaf c = true → cs.head? = some c :=
  buildContent_heading_first [⟨"group-flag", 1⟩, ⟨"record", 2⟩] (by decide)

/-- C3: the returned tree is uniformly depth-typed — depth 1 holds only
group-sections, depth 2 only group-heading leaves or unit-sections, depth 3
only unit-heading leaves or record leaves. -/
theorem buildContent_depth_typing (es : List Element)
    (h : ∀ e ∈ es, validType e.type = true) :
    ∃ t, buildContent es = .ok t ∧
      (∀ n ∈ atDepth 0 t.children, ∃ cs, n = Node.branch .group cs) ∧
      (∀ n ∈ atDepth 1 t.children,
        isLeafOfType "group-flag" n = true ∨ ∃ cs, n = Node.branch .unit cs) ∧
      (∀ n ∈ atDepth 2 t.children,
        isLeafOfType "unit-flag" n = true ∨ isLeafOfType "record" n = true) := by
  obtain ⟨st', hst'⟩ := buildLoop_ok_of_valid es h 0 initState
  have hwf := wfTree_finishState (buildLoop_StOK es 0 initState st' hst' StOK_init)
  set t := finishState st' with ht
  have hall : ∀ g ∈ t.children, isGroupSection g = true := by
    simpa [wfTree, List.all_eq_true] using hwf
  have hd2 : ∀ n ∈ t.children.flatMap childrenOf,
      isLeafOfType "group-flag" n = true ∨ isUnitSection n = true := by
    intro n hn
    obtain ⟨g, hg, hng⟩ := List.mem_flatMap.mp hn
    obtain ⟨cs, rfl, hwfg⟩ := isGroupSection_node (hall g hg)
    exact wfGroup_members hwfg n (by simpa [childrenOf] using hng)
  refine ⟨t, buildContent_ok es st' hst', ?_, ?_, ?_⟩
  · intro n hn
    rw [atDepth] at hn
    obtain ⟨cs, rfl, -⟩ := isGroupSection_node (hall n hn)
    exact ⟨cs, rfl⟩
  · intro n hn
    rw [atDepth, atDepth] at hn
    rcases hd2 n hn with h' | h'
    · exact Or.inl h'
    · obtain ⟨cs, rfl, -⟩ := isUnitSection_node h'
      exact Or.inr ⟨cs, rfl⟩
  · intro n hn
    rw [atDepth, atDepth, atDepth] at hn
    obtain ⟨m, hm, hnm⟩ := List.mem_flatMap.mp hn
    rcases hd2 m hm with h' | h'
    · obtain ⟨el, rfl, -⟩ := isLeafOfType_node h'
      simp [childrenOf] at hnm
    · obtain ⟨ucs, rfl, hwfu⟩ := isUnitSection_node h'
      exact wfUnit_members hwfu n (by simpa [childrenOf] using hnm)

theorem buildContent_depth_typing_witness :
    ∃ t, buildContent [⟨"record", 5⟩] = .ok t ∧
      (∀ n ∈ atDepth 0 t.children, ∃ cs, n = Node.branch .group cs) ∧
      (∀ n ∈ atDepth 1 t.children,
        isLeafOfType "group-flag" n = true ∨ ∃ cs, n = Node.branch .unit cs) ∧
      (∀ n ∈ atDepth 2 t.children,
        isLeafOfType "unit-flag" n = true ∨ isLeafOfType "record" n = true) :=
  buildContent_depth_typing [⟨"record", 5⟩] (by decide)

mutual
/-- Children lists of all unit-section branch nodes below one node,
pre-order. -/
def unitListsN : Node → List (List Node)
  | .leaf _ => []
  | .branch .unit cs => cs :: unitListsF cs
  | .branch .group cs => unitListsF cs

/-- Children lists of all unit-section branch nodes below a forest. -/
def unitListsF : List Node → List (List Node)
  | [] => []
  | n :: ns => unitListsN n ++ unitListsF ns
end

/-- Children lists of all unit-section branch nodes of the tree. -/
def treeUnitLists (t : Tree) : List (List Node) :=
  unitListsF t.children

/-- Children lists of the unit-sections already materialized in a build
state, plus the currently collected children of the still-open
unit-section. -/
def stateUnitLists (st : BuildState) : List (List Node) :=
  unitListsF st.closedGroups ++ unitListsF (st.openGroup.getD []) ++
    (match st.openUnit with
     | none => []
     | some ucs => [ucs])

/-- A list of nodes appears, as a contiguous run, inside some unit-section
the state knows about. -/
def InUnits (st : BuildState) (l : List Node) : Prop :=
  ∃ u ∈ stateUnitLists st, List.IsInfix l u

lemma unitListsF_append (ns ms : List Node) :
    unitListsF (ns ++ ms) = unitListsF ns ++ unitListsF ms := by
  induction ns with
  | nil => simp [unitListsF]
  | cons n ns ih => simp [unitListsF, ih]

lemma InUnits_flushUnit {st : BuildState} {l : List Node}
    (h : InUnits st l) : InUnits (flushUnit st) l := by
  obtain ⟨u, hu, hinf⟩ := h
  cases hou : st.openUnit with
  | none => exact ⟨u, by simpa [flushUnit, hou] using hu, hinf⟩
  | some ucs =>
    refine ⟨u, ?_, hinf⟩
    simp [stateUnitLists, hou, List.mem_append] at hu
    simp [flushUnit, hou, stateUnitLists, unitListsF_append, unitListsF,
      unitListsN, List.mem_append]
    tauto

lemma InUnits_flushGroup {st : BuildState} {l : List Node}
    (h : InUnits st l) : InUnits (flushGroup st) l := by
  have h1 := InUnits_flushUnit h
  obtain ⟨u, hu, hinf⟩ := h1
  rw [flushGroup]
  cases hog : (flushUnit st).openGroup with
  | none => exact ⟨u, by simpa [hog] using hu, hinf⟩
  | some gcs =>
    refine ⟨u, ?_, hinf⟩
    have h2 := flushUnit_openUnit st
    simp [stateUnitLists, hog, h2, List.mem_append] at hu
    simp [stateUnitLists, unitListsF_append, unitListsF, unitListsN,
      List.mem_append]
    tauto

lemma InUnits_stepGroupFlag {st : BuildState} {el : Element} {l : List Node}
    (h : InUnits st l) : InUnits (stepGroupFlag st el) l := by
  obtain ⟨u, hu, hinf⟩ := InUnits_flushGroup h
  refine ⟨u, ?_, hinf⟩
  have h2 := flushGroup_openGroup st
  have h3 := flushGroup_openUnit st
  simp [stateUnitLists, h2, h3, List.mem_append] at hu
  simp [stepGroupFlag, stateUnitLists, h3, unitListsF, unitListsN,
    List.mem_append]
  tauto

lemma InUnits_stepUnitFlag {st : BuildState} {el : Element} {l : List Node}
    (h : InUnits st l) : InUnits (stepUnitFlag st el) l := by
  obtain ⟨u, hu, hinf⟩ := InUnits_flushUnit h
  refine ⟨u, ?_, hinf⟩
  have h2 := flushUnit_openUnit st
  simp [stateUnitLists, h2, List.mem_append] at hu
  simp [stepUnitFlag, stateUnitLists, List.mem_append]
  tauto

lemma InUnits_stepRecord {st : BuildState} {el : Element} {l : List Node}
    (h : InUnits st l) : InUnits (stepRecord st el) l := by
  obtain ⟨u, hu, hinf⟩ := h
  cases hou : st.openUnit with
  | none =>
    refine ⟨u, ?_, hinf⟩
    simp [stateUnitLists, hou, List.mem_append] at hu
    simp [stepRecord, hou, stateUnitLists, List.mem_append]
    tauto
  | some ucs =>
    simp [stateUnitLists, hou, List.mem_append] at hu
    rcases hu with hu | hu | rfl
    · exact ⟨u,
        by simp [stepRecord, hou, stateUnitLists, List.mem_append]; tauto,
        hinf⟩
    · exact ⟨u,
        by simp [stepRecord, hou, stateUnitLists, List.mem_append]; tauto,
        hinf⟩
    · refine ⟨u ++ [Node.leaf el], ?_,
        hinf.trans ⟨[], [Node.leaf el], by simp⟩⟩
      simp [stepRecord, hou, stateUnitLists, List.mem_append]

lemma buildLoop_InUnits (es : List Element) :
    ∀ i st st' l, buildLoop es i st = .ok st' → InUnits st l → InUnits st' l := by
  induction es with
  | nil =>
    intro i st st' l hok h
    simp [buildLoop] at hok
    exact hok ▸ h
  | cons el rest ih =>
    intro i st st' l hok h
    by_cases h1 : el.type = "group-flag"
    · rw [buildLoop, if_pos h1] at hok
      exact ih _ _ _ _ hok (InUnits_stepGroupFlag h)
    · by_cases h2 : el.type = "unit-flag"
      · rw [buildLoop, if_neg h1, if_pos h2] at hok
        exact ih _ _ _ _ hok (InUnits_stepUnitFlag h)
      · by_cases h3 : el.type = "record"
        · rw [buildLoop, if_neg h1, if_neg h2, if_pos h3] at hok
          exact ih _ _ _ _ hok (InUnits_stepRecord h)
        · rw [buildLoop, if_neg h1, if_neg h2, if_neg h3] at hok
          exact absurd hok (by simp)

lemma InUnits_finishState {st : BuildState} {l : List Node}
    (h : InUnits st l) :
    ∃ u ∈ treeUnitLists (finishState st), List.IsInfix l u := by
  obtain ⟨u, hu, hinf⟩ := InUnits_flushGroup h
  refine ⟨u, ?_, hinf⟩
  have h2 := flushGroup_openGroup st
  have h3 := flushGroup_openUnit st
  simpa [stateUnitLists, treeUnitLists, finishState, h2, h3, unitListsF]
    using hu

lemma stepRecord_openUnit (st : BuildState) (el : Element) :
    ∃ ds, (stepRecord st el).openUnit = some (ds ++ [Node.leaf el]) := by
  cases hou : st.openUnit with
  | none => exact ⟨[], by simp [stepRecord, hou]⟩
  | some ucs => exact ⟨ucs, by simp [stepRecord, hou]⟩

lemma stepRecord_of_openUnit {st : BuildState} {ucs : List Node}
    (h : st.openUnit = some ucs) (el : Element) :
    stepRecord st el = { st with openUnit := some (ucs ++ [Node.leaf el]) } := by
  simp [stepRecord, h]

lemma InUnits_two_records (st : BuildState) (x y : Element) :
    InUnits (stepRecord (stepRecord st x) y) [Node.leaf x, Node.leaf y] := by
  obtain ⟨ds, hds⟩ := stepRecord_openUnit st x
  rw [stepRecord_of_openUnit hds y]
  refine ⟨ds ++ [Node.leaf x] ++ [Node.leaf y], ?_, ⟨ds, [], by simp⟩⟩
  simp [stateUnitLists, List.mem_append]

lemma buildLoop_append (as bs : List Element) : ∀ i st,
    buildLoop (as ++ bs) i st =
      (buildLoop as i st).bind (fun st1 => buildLoop bs (i + as.length) st1) := by
  induction as with
  | nil => intro i st; simp [buildLoop, Except.bind]
  | cons el as ih =>
    intro i st
    by_cases h1 : el.type = "group-flag"
    · rw [List.cons_append, buildLoop, if_pos h1, buildLoop, if_pos h1, ih]
      simp [List.length_cons]
      rw [show i + (as.length + 1) = i + 1 + as.length from by omega]
    · by_cases h2 : el.type = "unit-flag"
      · rw [List.cons_append, buildLoop, if_neg h1, if_pos h2, buildLoop,
          if_neg h1, if_pos h2, ih]
        simp [List.length_cons]
        rw [show i + (as.length + 1) = i + 1 + as.length from by omega]
      · by_cases h3 : el.type = "record"
        · rw [List.cons_append, buildLoop, if_neg h1, if_neg h2, if_pos h3,
            buildLoop, if_neg h1, if_neg h2, if_pos h3, ih]
          simp [List.length_cons]
          rw [show i + (as.length + 1) = i + 1 + as.length from by omega]
        · rw [List.cons_append, buildLoop, if_neg h1, if_neg h2, if_neg h3,
            buildLoop, if_neg h1, if_neg h2, if_neg h3]
          rfl

/-- C9: a record element never closes an open section — any two adjacent
records of a valid input end up as adjacent children of one and the same
unit-section node of the returned tree. -/
theorem buildContent_adjacent_records_same_unit (es : List Element)
    (h : ∀ e ∈ es, validType e.type = true) (i : Nat) (x y : Element)
    (hx : es[i]? = some x) (hy : es[i + 1]? = some y)
    (hxr : x.type = "record") (hyr : y.type = "record") :
    ∃ t, buildContent es = .ok t ∧
      ∃ u ∈ treeUnitLists t, List.IsInfix [Node.leaf x, Node.leaf y] u := by
  have hi : i < es.length := (List.getElem?_eq_some.mp hx).1
  have hi1 : i + 1 < es.length := (List.getElem?_eq_some.mp hy).1
  have hdecomp : es = es.take i ++ x :: y :: es.drop (i + 2) := by
    conv_lhs => rw [← List.take_append_drop i es]
    congr 1
    rw [List.drop_eq_getElem_cons hi, (List.getElem?_eq_some.mp hx).2,
      List.drop_eq_getElem_cons hi1, (List.getElem?_eq_some.mp hy).2]
  have htake : ∀ e ∈ es.take i, validType e.type = true := fun e he =>
    h e (List.take_subset i es he)
  have hdrop : ∀ e ∈ es.drop (i + 2), validType e.type = true := fun e he =>
    h e (List.drop_subset (i + 2) es he)
  obtain ⟨st0, hst0⟩ := buildLoop_ok_of_valid (es.take i) htake 0 initState
  set st2 := stepRecord (stepRecord st0 x) y with hst2
  obtain ⟨st3, hst3⟩ :=
    buildLoop_ok_of_valid (es.drop (i + 2)) hdrop (0 + i + 1 + 1) st2
  have hrun : buildLoop es 0 initState = .ok st3 := by
    rw [hdecomp, buildLoop_append, hst0]
    show buildLoop (x :: y :: es.drop (i + 2)) (0 + (es.take i).length) st0 =
      .ok st3
    rw [List.length_take_of_le (Nat.le_of_lt hi)]
    rw [buildLoop, if_neg (by simp [hxr]), if_neg (by simp [hxr]), if_pos hxr]
    rw [buildLoop, if_neg (by simp [hyr]), if_neg (by simp [hyr]), if_pos hyr]
    exact hst3
  refine ⟨finishState st3, buildContent_ok es st3 hrun, ?_⟩
  exact InUnits_finishState
    (buildLoop_InUnits (es.drop (i + 2)) _ _ _ _ hst3
      (InUnits_two_records st0 x y))

theorem buildContent_adjacent_records_same_unit_witness :
    ∃ t, buildContent [⟨"unit-flag", 0⟩, ⟨"record", 1⟩, ⟨"record", 2⟩] =
        .ok t ∧
      ∃ u ∈ treeUnitLists t,
        List.IsInfix
          [Node.leaf ⟨"record", 1⟩, Node.leaf ⟨"record", 2⟩] u :=
  buildContent_adjacent_records_same_unit
    [⟨"unit-flag", 0⟩, ⟨"record", 1⟩, ⟨"record", 2⟩]
    (by decide) 1 ⟨"record", 1⟩ ⟨"record", 2⟩ (by decide) (by decide)
    rfl rfl

/-- The styled-components `ServerStyleSheet` as seen by `buildEmbeddedCode`:
the styles it has collected and whether it has been sealed. -/
structure ServerStyleSheet where
  collectedStyles : String
  isSealed : Bool
deriving DecidableEq, Repr

/-- `new ServerStyleSheet()`: nothing collected, not sealed. -/
def ServerStyleSheet.new : ServerStyleSheet :=
  { collectedStyles := "", isSealed := false }

/-- `sheet.getStyleTags()`. -/
def ServerStyleSheet.getStyleTags (s : ServerStyleSheet) : String :=
  s.collectedStyles

/-- `sheet.seal()`. -/
def ServerStyleSheet.seal (s : ServerStyleSheet) : ServerStyleSheet :=
  { s with isSealed := true }

/-- `catch (err) { throw err }`: re-raise the caught error unchanged. -/
def rethrow {ε α : Type} (e : ε) : Except ε α :=
  Except.error e

/-- `try { body } catch (err) { throw err } finally { fin }` over a mutable
resource of type `σ`: run the body, pass errors through the rethrowing
catch, and run the finalizer on the resource on both paths. -/
def tryRethrowFinally {ε α σ : Type} (body : σ → Except ε α × σ)
    (fin : σ → σ) (s : σ) : Except ε α × σ :=
  let (r, s1) := body s
  let r1 : Except ε α :=
    match r with
    | .ok a => .ok a
    | .error e => rethrow e
  (r1, fin s1)

/-- `buildEmbeddedCode` from `src/packages/timeline/src/build-code/index.js`:
create a fresh `ServerStyleSheet`, render the timeline markup while
collecting styles into the sheet (abstracted as `renderToStaticMarkup`,
which may fail like `ReactDOMServer.renderToStaticMarkup` and returns the
html together with the sheet holding the collected styles), then return the
html concatenated with the style-injecting script tag built from the
sheet's style tags; the sheet is sealed in a `finally`, and any rendering
error is rethrown unchanged. -/
def buildEmbeddedCode {ε : Type}
    (renderToStaticMarkup : ServerStyleSheet → Except ε (String × ServerStyleSheet))
    (buildInjectStyleScript : String → String) :
    Except ε String × ServerStyleSheet :=
  let sheet := ServerStyleSheet.new
  tryRethrowFinally
    (fun sh =>
      match renderToStaticMarkup sh with
      | .error err => (.error err, sh)
      | .ok (html, sh1) =>
        let scriptTag := buildInjectStyleScript sh1.getStyleTags
        (.ok (html ++ scriptTag), sh1))
    ServerStyleSheet.seal
    sheet

/-- C10: `buildEmbeddedCode` seals its sheet on every execution path — on
success it returns the rendered markup concatenated with the
style-injecting script tag, in that order, and on a rendering error it
rethrows the original error unchanged; the sheet ends up sealed in both
cases. -/
theorem buildEmbeddedCode_seals {ε : Type}
    (render : ServerStyleSheet → Except ε (String × ServerStyleSheet))
    (script : String → String) :
    (buildEmbeddedCode render script).2.isSealed = true ∧
    (∀ html sh1, render ServerStyleSheet.new = .ok (html, sh1) →
      (buildEmbeddedCode render script).1 =
        .ok (html ++ script sh1.getStyleTags)) ∧
    (∀ e, render ServerStyleSheet.new = .error e →
      (buildEmbeddedCode render script).1 = .error e) := by
  refine ⟨?_, ?_, ?_⟩
  · cases h : render ServerStyleSheet.new with
    | error e =>
      simp [buildEmbeddedCode, tryRethrowFinally, h, ServerStyleSheet.seal]
    | ok p =>
      cases p with
      | mk html sh1 =>
        simp [buildEmbeddedCode, tryRethrowFinally, h, ServerStyleSheet.seal]
  · intro html sh1 h
    simp [buildEmbeddedCode, tryRethrowFinally, h]
  · intro e h
    simp [buildEmbeddedCode, tryRethrowFinally, h, rethrow]

theorem buildEmbeddedCode_seals_witness :
    (buildEmbeddedCode (ε := String)
        (fun sh => .ok ("<div></div>", { sh with collectedStyles := "css" }))
        (fun tags => tags)).2.isSealed = true ∧
    (buildEmbeddedCode (ε := String)
        (fun sh => .ok ("<div></div>", { sh with collectedStyles := "css" }))
        (fun tags => tags)).1 =
      .ok ("<div></div>" ++
        (ServerStyleSheet.mk "css" false).getStyleTags) ∧
    (buildEmbeddedCode (ε := String)
        (fun _ => .error "boom") (fun tags => tags)).1 = .error "boom" :=
  ⟨(buildEmbeddedCode_seals (ε := String)
      (fun sh => .ok ("<div></div>", { sh with collectedStyles := "css" }))
      (fun tags => tags)).1,
   (buildEmbeddedCode_seals (ε := String)
      (fun sh => .ok ("<div></div>", { sh with collectedStyles := "css" }))
      (fun tags => tags)).2.1 "<div></div>"
      (ServerStyleSheet.mk "css" false) rfl,
   (buildEmbeddedCode_seals (ε := String)
      (fun _ => .error "boom") (fun tags => tags)).2.2 "boom" rfl⟩

end Timeline
